import Mathlib

/-!
Verification of the geometry-layout packing/deduplication subsystem of the
`webgpu-bundle-culling` repository.

The definitions below are a shallow embedding of `src/js/geometry-layout.js`
and `src/common/geometry.js`.  JavaScript numbers are modelled as `Nat`
(with explicit `% 2^w` where `DataView.setUint8/16` wrap) and `ℚ` where the
source performs fractional division (`byteLength / arrayStride`).  JS
`undefined`-able fields are `Option`s, JS `Map`s are insertion-ordered
association lists, and code paths that throw in JS are modelled with
`Option` results.
-/

namespace GeometryLayoutModel

/-- `GPUPrimitiveTopology`, the five tags of `TopologyId` in the source. -/
inductive Topology
  | pointList | lineList | lineStrip | triangleStrip | triangleList
deriving DecidableEq, Repr, Inhabited

/-- `TopologyId[...]`: point-list=0, line-list=1, line-strip=2,
triangle-strip=3, triangle-list=4. -/
def TopologyIdVal : Topology → Nat
  | .pointList => 0
  | .lineList => 1
  | .lineStrip => 2
  | .triangleStrip => 3
  | .triangleList => 4

/-- Reverse lookup `TopologyId[n]` for `n` in `0..7` (the decoder masks with
`TopologyMask = 7`); tags 5–7 are `undefined` in JS and modelled as `none`. -/
def TopologyIdInv : Nat → Option Topology
  | 0 => some .pointList
  | 1 => some .lineList
  | 2 => some .lineStrip
  | 3 => some .triangleStrip
  | 4 => some .triangleList
  | _ => none

/-- Whether the topology is a strip type (`triangle-strip` or `line-strip`). -/
def Topology.isStrip : Topology → Bool
  | .triangleStrip => true
  | .lineStrip => true
  | _ => false

/-- `GPUIndexFormat`. -/
inductive IndexFormat
  | uint16 | uint32
deriving DecidableEq, Repr, Inhabited

/-- `StripIndexFormatId[...]`: uint16=0, uint32=8. -/
def StripIndexFormatIdVal : IndexFormat → Nat
  | .uint16 => 0
  | .uint32 => 8

/-- `GPUVertexStepMode`; the JS string 'instance' is `instanceMode` here. -/
inductive StepMode
  | vertex | instanceMode
deriving DecidableEq, Repr, Inhabited

/-- `StepModeId[...]`: vertex=0, instance=32768.  The serializer looks up
`StepModeId[buffer.stepMode || 'vertex']`, so an absent (`none`) step mode
encodes as 0, exactly like `'vertex'`. -/
def stepModeVal : Option StepMode → Nat
  | some .instanceMode => 32768
  | _ => 0

/-- The 30 `GPUVertexFormat` tags of `FormatId` in the source. -/
inductive Format
  | uint8x2 | uint8x4 | sint8x2 | sint8x4
  | unorm8x2 | unorm8x4 | snorm8x2 | snorm8x4
  | uint16x2 | uint16x4 | sint16x2 | sint16x4
  | unorm16x2 | unorm16x4 | snorm16x2 | snorm16x4
  | float16x2 | float16x4
  | float32 | float32x2 | float32x3 | float32x4
  | uint32 | uint32x2 | uint32x3 | uint32x4
  | sint32 | sint32x2 | sint32x3 | sint32x4
deriving DecidableEq, Repr, Inhabited

/-- `FormatId[...]`, tags 0–29 in source order. -/
def FormatIdVal : Format → Nat
  | .uint8x2 => 0 | .uint8x4 => 1 | .sint8x2 => 2 | .sint8x4 => 3
  | .unorm8x2 => 4 | .unorm8x4 => 5 | .snorm8x2 => 6 | .snorm8x4 => 7
  | .uint16x2 => 8 | .uint16x4 => 9 | .sint16x2 => 10 | .sint16x4 => 11
  | .unorm16x2 => 12 | .unorm16x4 => 13 | .snorm16x2 => 14 | .snorm16x4 => 15
  | .float16x2 => 16 | .float16x4 => 17
  | .float32 => 18 | .float32x2 => 19 | .float32x3 => 20 | .float32x4 => 21
  | .uint32 => 22 | .uint32x2 => 23 | .uint32x3 => 24 | .uint32x4 => 25
  | .sint32 => 26 | .sint32x2 => 27 | .sint32x3 => 28 | .sint32x4 => 29

/-- Reverse lookup `FormatId[n]`; bytes above 29 are `undefined` in JS (the
encoder never produces them) and are modelled as decode failure. -/
def FormatIdInv : Nat → Option Format
  | 0 => some .uint8x2 | 1 => some .uint8x4 | 2 => some .sint8x2 | 3 => some .sint8x4
  | 4 => some .unorm8x2 | 5 => some .unorm8x4 | 6 => some .snorm8x2 | 7 => some .snorm8x4
  | 8 => some .uint16x2 | 9 => some .uint16x4 | 10 => some .sint16x2 | 11 => some .sint16x4
  | 12 => some .unorm16x2 | 13 => some .unorm16x4 | 14 => some .snorm16x2 | 15 => some .snorm16x4
  | 16 => some .float16x2 | 17 => some .float16x4
  | 18 => some .float32 | 19 => some .float32x2 | 20 => some .float32x3 | 21 => some .float32x4
  | 22 => some .uint32 | 23 => some .uint32x2 | 24 => some .uint32x3 | 25 => some .uint32x4
  | 26 => some .sint32 | 27 => some .sint32x2 | 28 => some .sint32x3 | 29 => some .sint32x4
  | _ => none

theorem FormatIdInv_val (f : Format) : FormatIdInv (FormatIdVal f) = some f := by
  cases f <;> rfl

theorem FormatIdVal_le (f : Format) : FormatIdVal f ≤ 29 := by
  cases f <;> simp [FormatIdVal]

/-- One `GPUVertexAttribute`: `{shaderLocation, format, offset}`. -/
structure Attrib where
  shaderLocation : Nat
  format : Format
  offset : Nat
deriving DecidableEq, Repr, Inhabited

/-- One buffer of a `GeometryLayout`: `arrayStride`, optional `stepMode`
(JS leaves the property `undefined` when unset) and the attribute list. -/
structure BufferLayout where
  arrayStride : Nat
  stepMode : Option StepMode
  attributes : List Attrib
deriving DecidableEq, Repr, Inhabited

/-- `GeometryLayout`.  `id` is set by the cache at registration time;
`serializedBuffer`/`serializedString` model the private memoization fields
`#serializedBuffer`/`#serializedString`. -/
structure GeometryLayout where
  id : Option Nat := none
  buffers : List BufferLayout
  topology : Topology
  stripIndexFormat : Option IndexFormat
  serializedBuffer : Option (List Nat) := none
  serializedString : Option String := none
deriving DecidableEq, Repr, Inhabited

/-- The `GeometryLayout` constructor: stores `buffers` and `topology`, and
assigns `stripIndexFormat := indexFormat` only when the topology is
`triangle-strip` or `line-strip`. -/
def mkGeometryLayout (buffers : List BufferLayout) (topology : Topology)
    (indexFormat : IndexFormat) : GeometryLayout :=
  { buffers := buffers
    topology := topology
    stripIndexFormat := if topology.isStrip then some indexFormat else none }

/-- `dataView.setUint16(_, v, true)`: the 16-bit value wraps modulo 2^16 and
is written little-endian as two bytes. -/
def u16le (v : Nat) : List Nat := [v % 65536 % 256, v % 65536 / 256]

/-- Byte 0 of the serialization: `TopologyId[topology]` plus
`StripIndexFormatId[stripIndexFormat]` when the latter is defined. -/
def topoByte (l : GeometryLayout) : Nat :=
  TopologyIdVal l.topology +
    (match l.stripIndexFormat with
     | some f => StripIndexFormatIdVal f
     | none => 0)

/-- The 3 bytes of one attribute: a little-endian uint16 holding
`offset + (shaderLocation << 12)` followed by the format tag byte
(`setUint8` wraps modulo 256; `shaderLocation << 12` is `* 4096`). -/
def encodeAttrib (a : Attrib) : List Nat :=
  u16le (a.offset + a.shaderLocation * 4096) ++ [FormatIdVal a.format % 256]

/-- The 2-byte buffer record followed by its attribute records:
`attributes.length` in the low 4 bits, `arrayStride << 4` in the middle,
`StepModeId[stepMode || 'vertex']` in bit 15 (`<< 4` is `* 16`). -/
def encodeBuffer (b : BufferLayout) : List Nat :=
  u16le (b.attributes.length + b.arrayStride * 16 + stepModeVal b.stepMode) ++
    (b.attributes.map encodeAttrib).flatten

/-- The full byte serialization of `serializeToBuffer`, ignoring the memo
field (`setUint8(0, topologyData8)` wraps modulo 256). -/
def serializeCore (l : GeometryLayout) : List Nat :=
  topoByte l % 256 :: (l.buffers.map encodeBuffer).flatten

/-- `serializeToBuffer`: returns the memoized buffer when present, else the
packed bytes. -/
def serializeToBuffer (l : GeometryLayout) : List Nat :=
  match l.serializedBuffer with
  | some b => b
  | none => serializeCore l

/-- One lowercase hex digit, as produced by `Number.toString(16)`. -/
def hexChar (n : Nat) : Char :=
  if n < 10 then Char.ofNat (48 + n) else Char.ofNat (87 + n)

/-- `Uint8ToHex[b]`: two lowercase hex characters per byte. -/
def byteToHexChars (b : Nat) : List Char := [hexChar (b / 16 % 16), hexChar (b % 16)]

/-- Hex string of a byte list (the concatenation loop of
`serializeToString`). -/
def hexEncode (bytes : List Nat) : String :=
  String.mk ((bytes.map byteToHexChars).flatten)

/-- `serializeToString`: returns the memoized string when present, else the
hex form of `serializeToBuffer`. -/
def serializeToString (l : GeometryLayout) : String :=
  match l.serializedString with
  | some s => s
  | none => hexEncode (serializeToBuffer l)

/-- Value of one lowercase hex character per the `HexToUint8` table (keys
are exactly the lowercase two-character strings); other characters are
absent from the table. -/
def hexCharVal (c : Char) : Option Nat :=
  if 48 ≤ c.toNat ∧ c.toNat ≤ 57 then some (c.toNat - 48)
  else if 97 ≤ c.toNat ∧ c.toNat ≤ 102 then some (c.toNat - 87)
  else none

/-- `HexToUint8[pair]`: a missing table entry yields JS `undefined`, which a
`Uint8Array` element assignment stores as 0. -/
def hexPairVal (c1 c2 : Char) : Nat :=
  match hexCharVal c1, hexCharVal c2 with
  | some h, some lo => 16 * h + lo
  | _, _ => 0

/-- The byte array built by `deserializeFromString` from the hex string
(`value.length / 2` pairs; our callers always pass even-length strings —
an odd length makes the JS `Uint8Array` constructor throw). -/
def hexDecode : List Char → List Nat
  | c1 :: c2 :: rest => hexPairVal c1 c2 :: hexDecode rest
  | _ => []

/-- Decode `n` attribute records (3 bytes each) and return them together
with the remaining bytes; reading past the end throws a `RangeError` in JS,
modelled as `none`.  `attribData16 & 0x0FFF` is `% 4096`;
`(attribData16 >> 12) & 0x0F` is `/ 4096 % 16`. -/
def decodeAttribs : Nat → List Nat → Option (List Attrib × List Nat)
  | 0, rest => some ([], rest)
  | n + 1, b0 :: b1 :: b2 :: rest => do
      let v := b0 + 256 * b1
      let fmt ← FormatIdInv b2
      let (as, rest') ← decodeAttribs n rest
      some ({ shaderLocation := v / 4096 % 16, format := fmt, offset := v % 4096 } :: as, rest')
  | _ + 1, _ => none

/-- The stride mask applied by the decoder:
`(bufferData16 >> 4) & 0x08FF`.  Mask `0x08FF` keeps bits 0–7 and bit 11 of
the shifted value, i.e. `x % 256 + x / 2048 % 2 * 2048`.  (The encoder
packs the stride into 11 contiguous bits, so the matching mask would be
`0x07FF`; `0x08FF` is what the source applies.) -/
def strideMask (x : Nat) : Nat := x % 256 + x / 2048 % 2 * 2048

/-- Decode buffer records until the bytes are exhausted (the `while`
loop of `deserializeFromBuffer`).  Each iteration consumes at least two
bytes, so `fuel := bytes.length` suffices; `bufferData16 & 0x0F` is
`% 16` and `bufferData16 & 0x8000` selects bit 15. -/
def decodeBuffers : Nat → List Nat → Option (List BufferLayout)
  | _, [] => some []
  | fuel + 1, b0 :: b1 :: rest => do
      let v := b0 + 256 * b1
      let attribCount := v % 16
      let stride := strideMask (v / 16)
      let step : StepMode := if v / 32768 % 2 = 1 then .instanceMode else .vertex
      let (attrs, rest') ← decodeAttribs attribCount rest
      let bs ← decodeBuffers fuel rest'
      some ({ arrayStride := stride, stepMode := some step, attributes := attrs } :: bs)
  | _, _ => none

/-- `GeometryLayout.deserializeFromBuffer`.  Out-of-range reads
(`RangeError` in JS) and byte values outside the closed enums (JS stores
`undefined`, which never arises from the encoder) are modelled as `none`. -/
def deserializeFromBuffer (bytes : List Nat) : Option GeometryLayout := do
  let b0 ← bytes.head?
  let topology ← TopologyIdInv (b0 % 8)
  let stripIndexFormat : IndexFormat :=
    if topology.isStrip then
      (if b0 / 8 % 2 = 1 then .uint32 else .uint16)
    else .uint32
  let buffers ← decodeBuffers bytes.length bytes.tail
  some (mkGeometryLayout buffers topology stripIndexFormat)

/-- `GeometryLayout.deserializeFromString`: hex-decode, decode the bytes,
then cache the original byte buffer and string on the result. -/
def deserializeFromString (value : String) : Option GeometryLayout :=
  let bytes := hexDecode value.toList
  (deserializeFromBuffer bytes).map fun l =>
    { l with serializedBuffer := some bytes, serializedString := some value }

/-! ### JS `Map` as an insertion-ordered association list -/

/-- `Map.get`: the value stored under `key`, if present. -/
def alistGet {κ ν : Type} [DecidableEq κ] : List (κ × ν) → κ → Option ν
  | [], _ => none
  | (k, v) :: rest, key => if k = key then some v else alistGet rest key

/-- `Map.set`: overwrite in place when the key exists (keeping its
insertion position), otherwise append at the end. -/
def alistSet {κ ν : Type} [DecidableEq κ] : List (κ × ν) → κ → ν → List (κ × ν)
  | [], k, v => [(k, v)]
  | (k', v') :: rest, k, v =>
      if k' = k then (k, v) :: rest else (k', v') :: alistSet rest k v

theorem alistGet_set_self {κ ν : Type} [DecidableEq κ] (m : List (κ × ν)) (k : κ) (v : ν) :
    alistGet (alistSet m k v) k = some v := by
  induction m with
  | nil => simp [alistGet, alistSet]
  | cons p rest ih =>
      by_cases h : p.1 = k
      · simp [alistSet, alistGet, h]
      · simp [alistSet, alistGet, h, ih]

theorem alistGet_mem {κ ν : Type} [DecidableEq κ] {m : List (κ × ν)} {k : κ} {v : ν}
    (h : alistGet m k = some v) : (k, v) ∈ m := by
  induction m with
  | nil => simp [alistGet] at h
  | cons p rest ih =>
      by_cases hk : p.1 = k
      · simp only [alistGet, hk, if_pos] at h
        cases p
        simp_all
      · simp only [alistGet, hk, if_neg, not_false_iff] at h
        exact List.mem_cons_of_mem _ (ih h)

/-! ### `GeometryLayoutCache` -/

/-- The cache state: `#nextId`, `#keyMap` (serialization key → id) and
`#cache` (id → layout). -/
structure CacheState where
  nextId : Nat := 1
  keyMap : List (String × Nat) := []
  cacheList : List (Nat × GeometryLayout) := []
deriving DecidableEq, Repr, Inhabited

/-- A freshly constructed `GeometryLayoutCache`. -/
def freshCache : CacheState := {}

/-- `getLayout(id)`. -/
def getLayout (st : CacheState) (id : Nat) : Option GeometryLayout :=
  alistGet st.cacheList id

/-- `addLayoutToCache(layout, key)`: assign `#nextId++` to the layout,
freeze it, and record both `key → id` and `id → layout`. -/
def addLayoutToCache (st : CacheState) (layout : GeometryLayout) (key : String) :
    GeometryLayout × CacheState :=
  let l := { layout with id := some st.nextId }
  (l, { nextId := st.nextId + 1
        keyMap := alistSet st.keyMap key st.nextId
        cacheList := alistSet st.cacheList st.nextId l })

/-- `deserializeLayout(key)`: resolve via `#keyMap` when seen before, else
decode the key and register the result.  A JS decode exception is modelled
as the `none` result with the state unchanged. -/
def deserializeLayout (st : CacheState) (key : String) :
    Option GeometryLayout × CacheState :=
  match alistGet st.keyMap key with
  | some id => (alistGet st.cacheList id, st)
  | none =>
      match deserializeFromString key with
      | none => (none, st)
      | some layout =>
          let (l, st') := addLayoutToCache st layout key
          (some l, st')

/-- A caller-supplied buffer descriptor as consumed by `createLayout`; the
defensive copy reads only `arrayStride` and the attribute fields, never
`stepMode`. -/
structure AttribBufferInput where
  arrayStride : Nat
  stepMode : Option StepMode := none
  attributes : List Attrib
deriving DecidableEq, Repr, Inhabited

/-- The defensive copy loop of `createLayout`: copies `arrayStride` and
each attribute's `shaderLocation`/`format`/`offset`; the copied buffer
object has no `stepMode` property. -/
def copyBuffers (attribBuffers : List AttribBufferInput) : List BufferLayout :=
  attribBuffers.map fun buffer =>
    { arrayStride := buffer.arrayStride
      stepMode := none
      attributes := buffer.attributes.map fun attrib =>
        { shaderLocation := attrib.shaderLocation
          format := attrib.format
          offset := attrib.offset } }

/-- `createLayout(attribBuffers, topology, indexFormat)`.  The JS call
`layout.serializeToString()` memoizes the bytes and string on the layout
object before it is registered, which the returned/stored layout reflects.
A `#keyMap` hit resolves through `#cache` (an inconsistent state would
yield JS `undefined`, hence the `Option`). -/
def createLayout (st : CacheState) (attribBuffers : List AttribBufferInput)
    (topology : Topology) (indexFormat : IndexFormat) :
    Option GeometryLayout × CacheState :=
  let layout0 := mkGeometryLayout (copyBuffers attribBuffers) topology indexFormat
  let bytes := serializeCore layout0
  let key := hexEncode bytes
  let layout := { layout0 with serializedBuffer := some bytes, serializedString := some key }
  match alistGet st.keyMap key with
  | some id => (alistGet st.cacheList id, st)
  | none =>
      let (l, st') := addLayoutToCache st layout key
      (some l, st')

/-! ### `NormalizeBufferLayout` -/

/-- Insert `x` before the first element whose key is `≥ key x`.  Together
with `sortByKey` this is a stable ascending sort, matching the stable
`Array.prototype.sort` with comparator `(a, b) => keyA - keyB`. -/
def insertByKey {α : Type} (key : α → Nat) (x : α) : List α → List α
  | [] => [x]
  | y :: ys => if key x ≤ key y then x :: y :: ys else y :: insertByKey key x ys

/-- Stable insertion sort by a `Nat` key. -/
def sortByKey {α : Type} (key : α → Nat) : List α → List α
  | [] => []
  | x :: xs => insertByKey key x (sortByKey key xs)

/-- Update the value under `k` in place (JS mutates the array object held
in the `Map`), inserting `f init` at the end on first occurrence. -/
def updateAlist {κ ν : Type} [DecidableEq κ] (m : List (κ × ν)) (k : κ)
    (f : ν → ν) (init : ν) : List (κ × ν) :=
  match m with
  | [] => [(k, f init)]
  | (k', v') :: rest =>
      if k' = k then (k, f v') :: rest else (k', v') :: updateAlist rest k f init

/-- An input element of `NormalizeBufferLayout`: `{buffer, bufferOffset,
arrayStride, attributes}`.  The buffer handle `β` is compared by identity
(it is used as a `Map` key), so distinct objects with equal content are
distinct handles. -/
structure InputLayout (β : Type) where
  buffer : β
  bufferOffset : Option Nat := none
  arrayStride : Nat
  attributes : List Attrib
deriving DecidableEq, Repr

/-- An output binding of `NormalizeBufferLayout`. -/
structure NormalizedBinding (β : Type) where
  buffer : β
  bufferOffset : Nat
  arrayStride : Nat
  attributes : List Attrib
deriving DecidableEq, Repr

/-- `pushLayout`: emit a binding whose attribute list is sorted ascending
by `shaderLocation`. -/
def pushBinding {β : Type} (buffer : β) (bufferOffset arrayStride : Nat)
    (attributes : List Attrib) : NormalizedBinding β :=
  { buffer := buffer
    bufferOffset := bufferOffset
    arrayStride := arrayStride
    attributes := sortByKey (·.shaderLocation) attributes }

/-- The first pass of `NormalizeBufferLayout`: group the (absolute-offset)
attributes first by buffer handle, then by stride, skipping entries with
no attributes. -/
def addToGroups {β : Type} [DecidableEq β]
    (groups : List (β × List (Nat × List Attrib))) (layout : InputLayout β) :
    List (β × List (Nat × List Attrib)) :=
  if layout.attributes.length = 0 then groups
  else
    let flat := layout.attributes.map fun attrib =>
      { shaderLocation := attrib.shaderLocation
        format := attrib.format
        offset := attrib.offset + layout.bufferOffset.getD 0 : Attrib }
    updateAlist groups layout.buffer
      (fun strides => updateAlist strides layout.arrayStride (fun attrs => attrs ++ flat) [])
      []

/-- The splitting scan of `NormalizeBufferLayout` over one buffer/stride
group, with the attributes already sorted by absolute offset:
`minOff` is `minAttribOffset`, `acc` the pending `attributes` array.  An
attribute whose rebased offset reaches the stride closes out the current
binding and restarts from its absolute offset. -/
def scanGroup {β : Type} (buffer : β) (stride : Nat) :
    Nat → List Attrib → List Attrib → List (NormalizedBinding β)
  | minOff, acc, [] => [pushBinding buffer minOff stride acc]
  | minOff, acc, a :: rest =>
      if stride ≤ a.offset - minOff then
        pushBinding buffer minOff stride acc ::
          scanGroup buffer stride a.offset
            [{ shaderLocation := a.shaderLocation, format := a.format, offset := 0 }] rest
      else
        scanGroup buffer stride minOff
          (acc ++ [{ shaderLocation := a.shaderLocation, format := a.format,
                     offset := a.offset - minOff }]) rest

/-- Process one buffer/stride group: sort by absolute offset, take the
minimum offset as the binding base, and scan.  (An empty group never
arises: a group is only created from an entry with attributes.) -/
def processGroup {β : Type} (buffer : β) (stride : Nat) (attribs : List Attrib) :
    List (NormalizedBinding β) :=
  match sortByKey (·.offset) attribs with
  | [] => []
  | a :: rest => scanGroup buffer stride a.offset [] (a :: rest)

/-- Sort key of the final pass: `a.attributes[0].shaderLocation`.  The `[]`
case is unreachable under the emptiness guard in `NormalizeBufferLayout`. -/
def bindingFirstLoc {β : Type} (b : NormalizedBinding β) : Nat :=
  match b.attributes with
  | a :: _ => a.shaderLocation
  | [] => 0

/-- `NormalizeBufferLayout`.  When some emitted binding has an empty
attribute list (possible only for `arrayStride = 0`), the final JS sort
comparator dereferences `attributes[0]` of that binding and throws a
`TypeError`, modelled as `none`. -/
def NormalizeBufferLayout {β : Type} [DecidableEq β] (bufferLayouts : List (InputLayout β)) :
    Option (List (NormalizedBinding β)) :=
  let groups := bufferLayouts.foldl addToGroups []
  let bindings := (groups.map fun g =>
    ((g.2.map fun sg => processGroup g.1 sg.1 sg.2).flatten)).flatten
  if bindings.any (fun b => b.attributes.isEmpty) then none
  else some (sortByKey bindingFirstLoc bindings)

/-! ### `buildGeometry` (src/common/geometry.js) -/

/-- The eight recognized attribute slots (`Object.keys(AttribLocation)`). -/
inductive AttribSlot
  | position | normal | tangent | texcoord0 | texcoord1 | color | joints | weights
deriving DecidableEq, Repr, Inhabited

/-- Insertion order of the `AttribLocation` object literal, which is the
iteration order of `Object.keys`. -/
def slotOrder : List AttribSlot :=
  [.position, .normal, .tangent, .texcoord0, .texcoord1, .color, .joints, .weights]

/-- `AttribLocation`. -/
def AttribLocation : AttribSlot → Nat
  | .position => 0 | .normal => 1 | .tangent => 2 | .texcoord0 => 3
  | .texcoord1 => 4 | .color => 5 | .joints => 6 | .weights => 7

/-- `DefaultAttribFormat`. -/
def DefaultAttribFormat : AttribSlot → Format
  | .position => .float32x3 | .normal => .float32x3 | .tangent => .float32x3
  | .texcoord0 => .float32x2 | .texcoord1 => .float32x2 | .color => .float32x4
  | .joints => .uint16x4 | .weights => .float32x4

/-- `DefaultStride` (bytes per vertex for each format). -/
def DefaultStride : Format → Nat
  | .uint8x2 => 2 | .uint8x4 => 4 | .sint8x2 => 2 | .sint8x4 => 4
  | .unorm8x2 => 2 | .unorm8x4 => 4 | .snorm8x2 => 2 | .snorm8x4 => 4
  | .uint16x2 => 4 | .uint16x4 => 8 | .sint16x2 => 4 | .sint16x4 => 8
  | .unorm16x2 => 4 | .unorm16x4 => 8 | .snorm16x2 => 4 | .snorm16x4 => 8
  | .float16x2 => 4 | .float16x4 => 8
  | .float32 => 4 | .float32x2 => 8 | .float32x3 => 12 | .float32x4 => 16
  | .uint32 => 4 | .uint32x2 => 8 | .uint32x3 => 12 | .uint32x4 => 16
  | .sint32 => 4 | .sint32x2 => 8 | .sint32x3 => 12 | .sint32x4 => 16

/-- An attribute's `values` source.  `id` models object identity (the
source is used as a `Map` key and as the normalizer's buffer handle);
distinct JS objects carry distinct ids.  A typed-array/`DataView` view and
a raw `ArrayBuffer` contribute their byte length directly; a plain `number[]`
is converted through `new Float32Array(values)`, i.e. 4 bytes per element. -/
inductive AttribValues
  | view (id byteLength : Nat)
  | rawBuffer (id byteLength : Nat)
  | plainArray (id length : Nat)
deriving DecidableEq, Repr, Inhabited

/-- `byteArray.byteLength` for each kind of source. -/
def AttribValues.byteLength : AttribValues → Nat
  | .view _ n => n
  | .rawBuffer _ n => n
  | .plainArray _ len => 4 * len

/-- A `GeometryAttribute` descriptor `{values, offset, stride, format}`
(a bare source passed without a wrapper behaves as all-default options). -/
structure GeometryAttrib where
  values : AttribValues
  offset : Option Nat := none
  stride : Option Nat := none
  format : Option Format := none
deriving DecidableEq, Repr, Inhabited

/-- The `indices` input, restricted to the documented domain
`Uint16Array | Uint32Array | number[]`. -/
inductive IndexInput
  | u16 (length : Nat)
  | u32 (length : Nat)
  | plainIdx (length : Nat)
deriving DecidableEq, Repr, Inhabited

/-- Element count of an index input (`new Uint32Array(arr).length` equals
`arr.length` for a plain array). -/
def IndexInput.length : IndexInput → Nat
  | .u16 n => n
  | .u32 n => n
  | .plainIdx n => n

/-- `byteLength` of the backing store: 2 bytes per `Uint16Array` element,
4 per `Uint32Array` element. -/
def IndexInput.byteLength : IndexInput → Nat
  | .u16 n => 2 * n
  | .u32 n => 4 * n
  | .plainIdx n => 4 * n

/-- `Array.isArray(desc.indices) ? new Uint32Array(desc.indices) :
desc.indices`: a plain array becomes a `Uint32Array`; typed inputs are
kept as-is. -/
def normalizeIndices : IndexInput → IndexInput
  | .plainIdx n => .u32 n
  | x => x

/-- A `GeometryDescriptor`. -/
structure GeometryDescriptor where
  attribs : AttribSlot → Option GeometryAttrib
  drawCount : Option ℚ := none
  indices : Option IndexInput := none
  topology : Option Topology := none

/-- The dedup record stored in `arraySource` (its `byteArray` field holds
vertex data that no claim observes and is omitted). -/
structure SourceInfo where
  bufferOffset : Nat
  size : Nat
deriving DecidableEq, Repr, Inhabited

/-- `Number.MAX_SAFE_INTEGER`. -/
def maxSafeInteger : ℚ := 9007199254740991

/-- `Math.min` on two (exact) numbers, phrased through the executable
comparison `Rat.blt` so that concrete runs reduce in the kernel. -/
def qmin (a b : ℚ) : ℚ := if Rat.blt b a then b else a

theorem qmin_eq_min (a b : ℚ) : qmin a b = min a b := by
  by_cases h : Rat.blt b a = true
  · have hba : b < a := h
    rw [qmin, if_pos h, min_def, if_neg (not_le.mpr hba)]
  · have hab : a ≤ b := (Bool.not_eq_true _).mp h
    rw [qmin, if_neg h, min_def, if_pos hab]

/-- The exact value of the JS float division `a / b` for natural inputs
(`mkRat a b = a / b` over ℚ); JS yields `Infinity` for `b = 0`, which is
outside the domain the theorems below use. -/
def natDivQ (a b : Nat) : ℚ := mkRat a b

theorem natDivQ_eq_div (a b : Nat) : natDivQ a b = (a : ℚ) / (b : ℚ) := by
  simp [natDivQ, Rat.mkRat_eq_div]

/-- The state of `buildGeometry`'s attribute-intake loop. -/
structure VertexIntake where
  vertexBufferLayouts : List (InputLayout AttribValues) := []
  arraySource : List (AttribValues × SourceInfo) := []
  requiredBufferSize : Nat := 0
  maxVertices : ℚ := maxSafeInteger
deriving Repr

/-- One iteration of the intake loop.  The effective format/stride/offset
fall back to the slot and format defaults; an unseen source is assigned
the next packed offset (rounded up to 4 bytes) and updates `maxVertices`
with `byteLength / arrayStride` (exact rational division; the JS float
quotient agrees on every divisible input, and a zero stride — JS
`Infinity` — is outside the domain our theorems use). -/
def processSlot (desc : GeometryDescriptor) (acc : VertexIntake) (slot : AttribSlot) :
    VertexIntake :=
  match desc.attribs slot with
  | none => acc
  | some attrib =>
      let values := attrib.values
      let format := attrib.format.getD (DefaultAttribFormat slot)
      let arrayStride := attrib.stride.getD (DefaultStride format)
      let offset := attrib.offset.getD 0
      let shaderLocation := AttribLocation slot
      let (source, acc) :=
        match alistGet acc.arraySource values with
        | some source => (source, acc)
        | none =>
            let byteLength := values.byteLength
            let source : SourceInfo := { bufferOffset := acc.requiredBufferSize, size := byteLength }
            (source,
             { acc with
                arraySource := alistSet acc.arraySource values source
                requiredBufferSize := acc.requiredBufferSize + (byteLength + 3) / 4 * 4
                maxVertices := qmin acc.maxVertices (natDivQ byteLength arrayStride) })
      { acc with
          vertexBufferLayouts := acc.vertexBufferLayouts ++
            [{ buffer := values
               arrayStride := arrayStride
               attributes := [{ shaderLocation := shaderLocation, format := format,
                                offset := offset + source.bufferOffset }] }] }

/-- The whole intake loop over the recognized slots. -/
def intakeAttribs (desc : GeometryDescriptor) : VertexIntake :=
  slotOrder.foldl (processSlot desc) {}

/-- A vertex binding `{offset, size}` (the shared `GPUBuffer` handle
itself is not modelled). -/
structure VertexBinding where
  offset : Nat
  size : Nat
deriving DecidableEq, Repr, Inhabited

/-- The `indexBinding` output `{format, offset, size}`. -/
structure IndexBinding where
  format : IndexFormat
  offset : Nat := 0
  size : Nat
deriving DecidableEq, Repr, Inhabited

/-- The result of `buildGeometry`.  `layout` is an `Option` because a
`createLayout` key hit resolves through the cache map (JS would yield
`undefined` on an inconsistent cache). -/
structure BuildResult where
  layout : Option GeometryLayout
  vertexBindings : List VertexBinding
  indexBinding : Option IndexBinding
  drawCount : ℚ
deriving DecidableEq, Repr, Inhabited

/-- View a normalized binding as a `createLayout` input: the copy loop
reads only `arrayStride` and `attributes`; the normalized objects carry no
`stepMode` property. -/
def toAttribInput (nb : NormalizedBinding AttribValues) : AttribBufferInput :=
  { arrayStride := nb.arrayStride, stepMode := none, attributes := nb.attributes }

/-- `buildGeometry(device, desc)` with the module-level `layoutCache`
singleton threaded explicitly.  JS throws — no vertex data, a normalizer
`TypeError`, or an `arraySource` miss for a normalized handle — are
modelled as `none`. -/
def buildGeometry (st : CacheState) (desc : GeometryDescriptor) :
    Option (BuildResult × CacheState) := do
  let acc := intakeAttribs desc
  if acc.requiredBufferSize = 0 then none
  else do
    let bufferLayouts ← NormalizeBufferLayout acc.vertexBufferLayouts
    let vertexBindings ← bufferLayouts.mapM fun l =>
      (alistGet acc.arraySource l.buffer).map fun s =>
        ({ offset := l.bufferOffset, size := s.size } : VertexBinding)
    let indexArray := desc.indices.map normalizeIndices
    let indexFormat : IndexFormat :=
      match indexArray with
      | some (.u16 _) => .uint16
      | _ => .uint32
    let (layout, st') := createLayout st (bufferLayouts.map toAttribInput)
      (desc.topology.getD .triangleList) indexFormat
    let indexBinding := indexArray.map fun ia =>
      ({ format := indexFormat, offset := 0, size := ia.byteLength } : IndexBinding)
    let drawCount : ℚ :=
      match desc.drawCount with
      | some d => d
      | none =>
          match indexArray with
          | some ia => (ia.length : ℚ)
          | none => acc.maxVertices
    some ({ layout := layout
            vertexBindings := vertexBindings
            indexBinding := indexBinding
            drawCount := drawCount }, st')

/-! ### Validity of a layout with respect to the stated bit budgets -/

/-- The bit budgets stated by the spec for `serializeToBuffer`: at most 15
attributes per buffer, `arrayStride ≤ 2047`, attribute `offset ≤ 4095`,
`shaderLocation ≤ 15` (topology and format tags are within range by
construction of their types). -/
def withinBudgets (l : GeometryLayout) : Bool :=
  l.buffers.all fun b =>
    decide (b.attributes.length ≤ 15) && decide (b.arrayStride ≤ 2047) &&
      b.attributes.all fun a => decide (a.offset ≤ 4095) && decide (a.shaderLocation ≤ 15)

end GeometryLayoutModel

namespace GeometryLayoutClaims
open GeometryLayoutModel

/-- C1: the claim states that for every `GeometryLayout` within the bit
budgets, `deserializeFromBuffer (serializeToBuffer L)` reproduces all the
fields, in particular each buffer's `arrayStride`.  It fails: the decoder
masks the shifted buffer word with `0x08FF` instead of `0x07FF`, so the
in-budget stride 256 (bit 8 of the stride field) decodes to 0.  This
theorem evaluates the round trip at that failing input: the layout is
within budgets, encodes to `[0x00, 0x00, 0x10]`, and decodes with
`arrayStride = 0` instead of 256. -/
theorem c1_stride_roundtrip_bug :
    withinBudgets { buffers := [⟨256, none, []⟩], topology := .pointList,
                    stripIndexFormat := none } = true ∧
    serializeToBuffer { buffers := [⟨256, none, []⟩], topology := .pointList,
                        stripIndexFormat := none } = [0, 0, 16] ∧
    (deserializeFromBuffer [0, 0, 16]).map (fun l => l.buffers.map (fun b => b.arrayStride)) =
      some [0] := by
  decide

/-- C3: the claim states that serialization reports an error whenever a
field exceeds its bit budget.  The code performs no validation: encoding a
buffer with `arrayStride = 2048` (> 2047) succeeds and silently wraps
`2048 << 4 = 0x8000` into the step-mode bit — the bytes `[0, 0, 128]`
decode to a buffer whose `stepMode` is `'instance'` although the input
said (implicitly) `'vertex'`. -/
theorem c3_encode_silently_wraps :
    serializeToBuffer { buffers := [⟨2048, none, []⟩], topology := .pointList,
                        stripIndexFormat := none } = [0, 0, 128] ∧
    (deserializeFromBuffer [0, 0, 128]).map (fun l => l.buffers.map (fun b => b.stepMode)) =
      some [some StepMode.instanceMode] := by
  decide

/-- C7 (counterexample): the claim quantifies over every input, but on an
entry with attributes and `arrayStride = 0` the scan emits a binding with
an empty attribute list and the final sort comparator dereferences
`attributes[0]` of it — a JS `TypeError`, so no sorted list is returned
(`none` in the model). -/
theorem c7_stride_zero_counterexample :
    NormalizeBufferLayout [⟨(0 : Nat), none, 0, [⟨0, .float32, 0⟩]⟩] = none := by
  decide

/-- C10 (counterexample): the claim states that every layout returned by
`createLayout` has no `stepMode` on any buffer.  If the same canonical key
was first registered through `deserializeLayout`, `createLayout` returns
that cached layout, whose buffers carry an explicit `stepMode: 'vertex'`
(decoded from bit 15), not an absent one — contradicting `[none]`. -/
theorem c10_cached_stepmode_counterexample :
    ((createLayout (deserializeLayout freshCache "000000").2
        [⟨0, some .instanceMode, []⟩] .pointList .uint32).1).map
      (fun l => l.buffers.map (fun b => b.stepMode)) = some [some StepMode.vertex] ∧
    (some [some StepMode.vertex] : Option (List (Option StepMode))) ≠ some [none] := by
  decide

/-- C8 (counterexample): the claim states that with no indices and no
explicit `drawCount`, the result equals the minimum over all supplied
attributes of `byteSize / arrayStride`.  When `position` and `normal`
share one 48-byte source but declare strides 4 and 12, `maxVertices` is
only updated at the source's first use (`position`, stride 4), so the code
returns 48/4 = 12, while the claimed minimum is `min (48/4) (48/12) = 4`. -/
theorem c8_shared_source_counterexample :
    (buildGeometry freshCache
      { attribs := fun s => match s with
          | .position => some { values := .view 0 48, stride := some 4 }
          | .normal => some { values := .view 0 48, stride := some 12 }
          | _ => none }).map (fun p => p.1.drawCount) = some 12 ∧
    qmin (natDivQ 48 4) (natDivQ 48 12) = 4 ∧ (12 : ℚ) ≠ 4 := by
  decide

/-- The structural content of a `createLayout` input that the defensive
copy reads: `arrayStride` plus each attribute's
`(shaderLocation, format, offset)`. -/
def inputProj (b : AttribBufferInput) : Nat × List (Nat × Format × Nat) :=
  (b.arrayStride, b.attributes.map fun a => (a.shaderLocation, a.format, a.offset))

theorem copyBuffers_eq_of_proj {b1 b2 : List AttribBufferInput}
    (h : b1.map inputProj = b2.map inputProj) : copyBuffers b1 = copyBuffers b2 := by
  have hfactor : ∀ b : List AttribBufferInput,
      copyBuffers b = (b.map inputProj).map fun p =>
        ({ arrayStride := p.1, stepMode := none,
           attributes := p.2.map fun a => ⟨a.1, a.2.1, a.2.2⟩ } : BufferLayout) := by
    intro b
    simp only [copyBuffers, List.map_map]
    refine List.map_congr_left fun x _ => ?_
    simp only [Function.comp_apply, inputProj, List.map_map]
    rfl
  rw [hfactor, hfactor, h]

/-- C2: within one cache, calling `createLayout` twice with structurally
equal inputs (same topology and index format, buffer lists agreeing on
`arrayStride` and on every attribute's `shaderLocation`, `format` and
`offset` — the inputs may otherwise be distinct objects) returns the same
cached layout both times (hence the same `id`), and the second call leaves
the cache untouched: identical canonical encodings resolve to the single
registered layout. -/
theorem c2_createLayout_dedup (st : CacheState) (b1 b2 : List AttribBufferInput)
    (t : Topology) (f : IndexFormat)
    (h : b1.map inputProj = b2.map inputProj) :
    (createLayout (createLayout st b1 t f).2 b2 t f).1 = (createLayout st b1 t f).1 ∧
    (createLayout (createLayout st b1 t f).2 b2 t f).2 = (createLayout st b1 t f).2 := by
  have hcopy : copyBuffers b2 = copyBuffers b1 := (copyBuffers_eq_of_proj h).symm
  simp only [createLayout, hcopy]
  cases hget : alistGet st.keyMap
      (hexEncode (serializeCore (mkGeometryLayout (copyBuffers b1) t f))) with
  | some id => simp [hget]
  | none => simp [hget, addLayoutToCache, alistGet_set_self]

/-- Witness for C2 at concrete distinct inputs (the second buffer list
differs in its `stepMode`, which the copy ignores). -/
theorem c2_createLayout_dedup_witness :
    (createLayout (createLayout freshCache [⟨16, some .instanceMode, [⟨0, .float32, 0⟩]⟩]
        .triangleList .uint32).2 [⟨16, none, [⟨0, .float32, 0⟩]⟩] .triangleList .uint32).1 =
      (createLayout freshCache [⟨16, some .instanceMode, [⟨0, .float32, 0⟩]⟩]
        .triangleList .uint32).1 ∧
    (createLayout (createLayout freshCache [⟨16, some .instanceMode, [⟨0, .float32, 0⟩]⟩]
        .triangleList .uint32).2 [⟨16, none, [⟨0, .float32, 0⟩]⟩] .triangleList .uint32).2 =
      (createLayout freshCache [⟨16, some .instanceMode, [⟨0, .float32, 0⟩]⟩]
        .triangleList .uint32).2 :=
  c2_createLayout_dedup freshCache _ _ .triangleList .uint32 (by decide)

/-- One call against a `GeometryLayoutCache`. -/
inductive CacheOp
  | create (bufs : List AttribBufferInput) (topology : Topology) (indexFormat : IndexFormat)
  | deser (key : String)

/-- Apply one call to the cache, keeping only the state. -/
def applyOp (st : CacheState) : CacheOp → CacheState
  | .create b t f => (createLayout st b t f).2
  | .deser k => (deserializeLayout st k).2

/-- Replay a sequence of calls against a fresh cache.  The model is a pure
function of the call sequence, so replaying the same sequence reproduces
the same states and ids definitionally. -/
def runOps (ops : List CacheOp) : CacheState := ops.foldl applyOp freshCache

theorem alistSet_eq_append {κ ν : Type} [DecidableEq κ] (m : List (κ × ν)) (k : κ) (v : ν)
    (h : k ∉ m.map Prod.fst) : alistSet m k v = m ++ [(k, v)] := by
  induction m with
  | nil => rfl
  | cons p rest ih =>
      simp only [List.map_cons, List.mem_cons] at h
      push_neg at h
      rw [alistSet, if_neg (fun hk => h.1 hk.symm), ih h.2]
      rfl

theorem cacheInvariant_applyOp (st : CacheState) (op : CacheOp)
    (h1 : st.cacheList.map Prod.fst = List.range' 1 st.cacheList.length)
    (h2 : st.nextId = st.cacheList.length + 1)
    (h3 : ∀ p ∈ st.cacheList, p.2.id = some p.1) :
    (applyOp st op).cacheList.map Prod.fst =
        List.range' 1 (applyOp st op).cacheList.length ∧
      (applyOp st op).nextId = (applyOp st op).cacheList.length + 1 ∧
      ∀ p ∈ (applyOp st op).cacheList, p.2.id = some p.1 := by
  have hadd : ∀ (layout : GeometryLayout) (key : String),
      (addLayoutToCache st layout key).2.cacheList.map Prod.fst =
          List.range' 1 (addLayoutToCache st layout key).2.cacheList.length ∧
        (addLayoutToCache st layout key).2.nextId =
          (addLayoutToCache st layout key).2.cacheList.length + 1 ∧
        ∀ p ∈ (addLayoutToCache st layout key).2.cacheList, p.2.id = some p.1 := by
    intro layout key
    have hfresh : st.nextId ∉ st.cacheList.map Prod.fst := by
      rw [h1, h2, List.mem_range']
      omega
    simp only [addLayoutToCache, alistSet_eq_append st.cacheList st.nextId _ hfresh]
    refine ⟨?_, by simp [h2], ?_⟩
    · rw [List.map_append, h1, List.length_append, h2]
      simp [List.range'_concat, Nat.add_comm]
    · intro p hp
      rcases List.mem_append.mp hp with hp | hp
      · exact h3 p hp
      · simp only [List.mem_singleton] at hp
        subst hp
        rfl
  cases op with
  | create b t f =>
      simp only [applyOp, createLayout]
      cases alistGet st.keyMap (hexEncode (serializeCore (mkGeometryLayout (copyBuffers b) t f))) with
      | some id => exact ⟨h1, h2, h3⟩
      | none => exact hadd _ _
  | deser k =>
      simp only [applyOp, deserializeLayout]
      cases alistGet st.keyMap k with
      | some id => exact ⟨h1, h2, h3⟩
      | none =>
          cases deserializeFromString k with
          | none => exact ⟨h1, h2, h3⟩
          | some layout => exact hadd _ _

/-- C5: after any sequence of `createLayout`/`deserializeLayout` calls
against a fresh cache, the registered ids (in registration order) are
exactly `1, 2, ..., N`: strictly increasing from 1, no gaps, never reused,
with `#nextId = N + 1`, and each registered layout carries the id it is
stored under.  Replay determinism is definitional: `runOps` is a pure
function of the call sequence. -/
theorem c5_cache_ids_sequential (ops : List CacheOp) :
    (runOps ops).cacheList.map Prod.fst = List.range' 1 (runOps ops).cacheList.length ∧
      (runOps ops).nextId = (runOps ops).cacheList.length + 1 ∧
      ∀ p ∈ (runOps ops).cacheList, p.2.id = some p.1 := by
  rw [runOps]
  induction ops using List.reverseRecOn with
  | nil => exact ⟨rfl, rfl, by intro p hp; cases hp⟩
  | append_singleton ops op ih =>
      rw [List.foldl_append, List.foldl_cons, List.foldl_nil]
      exact cacheInvariant_applyOp _ op ih.1 ih.2.1 ih.2.2

theorem u16le_lt (v : Nat) : ∀ x ∈ u16le v, x < 256 := by
  intro x hx
  simp only [u16le, List.mem_cons, List.not_mem_nil, or_false] at hx
  rcases hx with rfl | rfl <;> omega

theorem encodeAttrib_lt (a : Attrib) : ∀ x ∈ encodeAttrib a, x < 256 := by
  intro x hx
  simp only [encodeAttrib, List.mem_append, List.mem_cons, List.not_mem_nil, or_false] at hx
  rcases hx with hx | rfl
  · exact u16le_lt _ x hx
  · omega

theorem encodeBuffer_lt (b : BufferLayout) : ∀ x ∈ encodeBuffer b, x < 256 := by
  intro x hx
  simp only [encodeBuffer, List.mem_append] at hx
  rcases hx with hx | hx
  · exact u16le_lt _ x hx
  · rcases List.mem_flatten.mp hx with ⟨l, hl, hxl⟩
    rcases List.mem_map.mp hl with ⟨a, _, rfl⟩
    exact encodeAttrib_lt a x hxl

theorem serializeCore_lt (l : GeometryLayout) : ∀ x ∈ serializeCore l, x < 256 := by
  intro x hx
  simp only [serializeCore, List.mem_cons] at hx
  rcases hx with rfl | hx
  · omega
  · rcases List.mem_flatten.mp hx with ⟨bs, hbs, hxbs⟩
    rcases List.mem_map.mp hbs with ⟨b, _, rfl⟩
    exact encodeBuffer_lt b x hxbs

theorem hexCharVal_hexChar : ∀ h : Fin 16, hexCharVal (hexChar h.val) = some h.val := by
  decide

theorem hexPair_roundtrip (b : Nat) (hb : b < 256) :
    hexPairVal (hexChar (b / 16 % 16)) (hexChar (b % 16)) = b := by
  have h1 : b / 16 % 16 = b / 16 := Nat.mod_eq_of_lt (by omega)
  have hv1 := hexCharVal_hexChar ⟨b / 16, by omega⟩
  have hv2 := hexCharVal_hexChar ⟨b % 16, by omega⟩
  simp only [Fin.val_mk] at hv1 hv2
  rw [h1]
  simp only [hexPairVal, hv1, hv2]
  omega

theorem hexDecode_hexEncode (bs : List Nat) (h : ∀ x ∈ bs, x < 256) :
    hexDecode (hexEncode bs).toList = bs := by
  induction bs with
  | nil => rfl
  | cons b rest ih =>
      have hb : b < 256 := h b (List.mem_cons_self _ _)
      have hrest : ∀ x ∈ rest, x < 256 := fun x hx => h x (List.mem_cons_of_mem _ hx)
      have hdata : (hexEncode (b :: rest)).toList =
          hexChar (b / 16 % 16) :: hexChar (b % 16) :: (hexEncode rest).toList := rfl
      rw [hdata, hexDecode, hexPair_roundtrip b hb, ih hrest]

/-- The attribute produced by decoding the encoding of `a` (identity on
attributes within the bit budgets). -/
def attribImage (a : Attrib) : Attrib :=
  { shaderLocation := (a.offset + a.shaderLocation * 4096) % 65536 / 4096 % 16
    format := a.format
    offset := (a.offset + a.shaderLocation * 4096) % 65536 % 4096 }

/-- The buffer produced by decoding the encoding of `b` (for the stride
field this is where the `0x08FF` mask acts). -/
def bufferImage (b : BufferLayout) : BufferLayout :=
  { arrayStride := strideMask
      ((b.attributes.length + b.arrayStride * 16 + stepModeVal b.stepMode) % 65536 / 16)
    stepMode := some (if (b.attributes.length + b.arrayStride * 16 + stepModeVal b.stepMode)
        % 65536 / 32768 % 2 = 1 then .instanceMode else .vertex)
    attributes := b.attributes.map attribImage }

theorem decodeAttribs_encode (attrs : List Attrib) (rest : List Nat) :
    decodeAttribs attrs.length ((attrs.map encodeAttrib).flatten ++ rest) =
      some (attrs.map attribImage, rest) := by
  induction attrs generalizing rest with
  | nil => rfl
  | cons a attrs ih =>
      have hfmt : FormatIdVal a.format % 256 = FormatIdVal a.format :=
        Nat.mod_eq_of_lt (by have := FormatIdVal_le a.format; omega)
      have hv : ∀ v : Nat, v % 65536 % 256 + 256 * (v % 65536 / 256) = v % 65536 := by
        intro v; omega
      simp only [List.map_cons, List.flatten_cons, List.length_cons, encodeAttrib, u16le,
        List.append_assoc, List.cons_append, List.nil_append, List.append_eq, decodeAttribs,
        hv, hfmt, FormatIdInv_val, Option.bind_eq_bind, Option.some_bind, ih, attribImage]

theorem encodeBuffer_length_pos (b : BufferLayout) : 0 < (encodeBuffer b).length := by
  simp [encodeBuffer, u16le]

theorem decodeBuffers_encode (bufs : List BufferLayout) (fuel : Nat)
    (hfuel : bufs.length ≤ fuel) (h : ∀ b ∈ bufs, b.attributes.length ≤ 15) :
    decodeBuffers fuel ((bufs.map encodeBuffer).flatten) = some (bufs.map bufferImage) := by
  induction bufs generalizing fuel with
  | nil => cases fuel <;> rfl
  | cons b bufs ih =>
      cases fuel with
      | zero => simp at hfuel
      | succ fuel =>
          have hb : b.attributes.length ≤ 15 := h b (List.mem_cons_self _ _)
          have hbufs : ∀ x ∈ bufs, x.attributes.length ≤ 15 :=
            fun x hx => h x (List.mem_cons_of_mem _ hx)
          have hbs := ih fuel (by simpa using Nat.le_of_succ_le_succ hfuel) hbufs
          have has := decodeAttribs_encode b.attributes ((bufs.map encodeBuffer).flatten)
          have hv : ∀ v : Nat, v % 65536 % 256 + 256 * (v % 65536 / 256) = v % 65536 := by
            intro v; omega
          have hcount :
              (b.attributes.length + b.arrayStride * 16 + stepModeVal b.stepMode) % 65536 % 16 =
                b.attributes.length := by
            rcases b.stepMode with _ | sm
            · simp only [stepModeVal]; omega
            · cases sm <;> simp only [stepModeVal] <;> omega
          simp only [List.map_cons, List.flatten_cons, encodeBuffer, u16le,
            List.append_assoc, List.cons_append, List.nil_append, List.append_eq, decodeBuffers,
            hv, hcount, Option.bind_eq_bind, Option.some_bind, has, hbs, bufferImage]

theorem length_le_flatten_encodeBuffer (bufs : List BufferLayout) :
    bufs.length ≤ ((bufs.map encodeBuffer).flatten).length := by
  induction bufs with
  | nil => simp
  | cons b bufs ih =>
      simp only [List.map_cons, List.flatten_cons, List.length_append, List.length_cons]
      have := encodeBuffer_length_pos b
      omega

theorem TopologyIdInv_val (t : Topology) : TopologyIdInv (TopologyIdVal t) = some t := by
  cases t <;> rfl

/-- The strip-index addend of byte 0 is 0 or 8. -/
theorem stripAdd_cases (l : GeometryLayout) :
    (match l.stripIndexFormat with
      | some f => StripIndexFormatIdVal f
      | none => 0) = 0 ∨
    (match l.stripIndexFormat with
      | some f => StripIndexFormatIdVal f
      | none => 0) = 8 := by
  rcases l.stripIndexFormat with _ | f
  · exact Or.inl rfl
  · cases f
    · exact Or.inl rfl
    · exact Or.inr rfl

theorem TopologyIdVal_le (t : Topology) : TopologyIdVal t ≤ 4 := by
  cases t <;> simp [TopologyIdVal]

theorem topoByte_le (l : GeometryLayout) : topoByte l ≤ 12 := by
  have ht := TopologyIdVal_le l.topology
  rw [topoByte]
  rcases stripAdd_cases l with hs | hs <;> rw [hs] <;> omega

theorem topoByte_mod8 (l : GeometryLayout) : topoByte l % 8 = TopologyIdVal l.topology := by
  have ht := TopologyIdVal_le l.topology
  rw [topoByte]
  rcases stripAdd_cases l with hs | hs <;> rw [hs] <;> omega

theorem deserializeFromBuffer_serializeCore (l : GeometryLayout)
    (h : ∀ b ∈ l.buffers, b.attributes.length ≤ 15) :
    deserializeFromBuffer (serializeCore l) =
      some (mkGeometryLayout (l.buffers.map bufferImage) l.topology
        (if l.topology.isStrip then
          (if topoByte l % 256 / 8 % 2 = 1 then .uint32 else .uint16)
         else .uint32)) := by
  have hmod : topoByte l % 256 = topoByte l := Nat.mod_eq_of_lt (by have := topoByte_le l; omega)
  have hfuel : l.buffers.length ≤ (serializeCore l).length :=
    le_trans (length_le_flatten_encodeBuffer l.buffers) (by simp [serializeCore])
  have hbs := decodeBuffers_encode l.buffers (serializeCore l).length hfuel h
  rw [deserializeFromBuffer]
  simp only [serializeCore, List.head?_cons, List.tail_cons, Option.bind_eq_bind,
    Option.some_bind]
  rw [show (topoByte l % 256 :: (l.buffers.map encodeBuffer).flatten).length =
    (serializeCore l).length from by simp [serializeCore]]
  rw [show topoByte l % 256 % 8 = TopologyIdVal l.topology from by rw [hmod, topoByte_mod8]]
  rw [TopologyIdInv_val]
  simp only [Option.some_bind, hbs]

/-- C4: for every fresh (un-memoized) `GeometryLayout` whose buffers hold
at most 15 attributes each (in particular every layout within the stated
bit budgets), decoding its string encoding succeeds, the decode caches the
original byte buffer and string on the result, and re-encoding that result
returns exactly the original string: `encode(decode(encode(L))) =
encode(L)`. -/
theorem c4_string_roundtrip (L : GeometryLayout)
    (hbuf : L.serializedBuffer = none) (hstr : L.serializedString = none)
    (hbudget : ∀ b ∈ L.buffers, b.attributes.length ≤ 15) :
    ∃ D, deserializeFromString (serializeToString L) = some D ∧
      D.serializedString = some (serializeToString L) ∧
      D.serializedBuffer = some (serializeToBuffer L) ∧
      serializeToString D = serializeToString L := by
  have hser : serializeToString L = hexEncode (serializeCore L) := by
    rw [serializeToString, hstr, serializeToBuffer, hbuf]
  have hbytes : hexDecode (serializeToString L).toList = serializeCore L := by
    rw [hser]
    exact hexDecode_hexEncode _ (serializeCore_lt L)
  have hd := deserializeFromBuffer_serializeCore L hbudget
  refine ⟨{ mkGeometryLayout (L.buffers.map bufferImage) L.topology
      (if L.topology.isStrip then
        (if topoByte L % 256 / 8 % 2 = 1 then .uint32 else .uint16)
       else .uint32) with
      serializedBuffer := some (serializeCore L),
      serializedString := some (serializeToString L) }, ?_, rfl, ?_, rfl⟩
  · rw [deserializeFromString, hbytes, hd]
    rfl
  · rw [serializeToBuffer, hbuf]

/-- Witness for C4 at a concrete strip-topology layout. -/
theorem c4_string_roundtrip_witness :
    ∃ D, deserializeFromString (serializeToString
        { buffers := [⟨32, none, [⟨0, .float32x3, 0⟩, ⟨1, .float32x3, 12⟩]⟩],
          topology := .triangleStrip, stripIndexFormat := some .uint16 }) = some D ∧
      D.serializedString = some (serializeToString
        { buffers := [⟨32, none, [⟨0, .float32x3, 0⟩, ⟨1, .float32x3, 12⟩]⟩],
          topology := .triangleStrip, stripIndexFormat := some .uint16 }) ∧
      D.serializedBuffer = some (serializeToBuffer
        { buffers := [⟨32, none, [⟨0, .float32x3, 0⟩, ⟨1, .float32x3, 12⟩]⟩],
          topology := .triangleStrip, stripIndexFormat := some .uint16 }) ∧
      serializeToString D = serializeToString
        { buffers := [⟨32, none, [⟨0, .float32x3, 0⟩, ⟨1, .float32x3, 12⟩]⟩],
          topology := .triangleStrip, stripIndexFormat := some .uint16 } :=
  c4_string_roundtrip
    { buffers := [⟨32, none, [⟨0, .float32x3, 0⟩, ⟨1, .float32x3, 12⟩]⟩],
      topology := .triangleStrip, stripIndexFormat := some .uint16 }
    rfl rfl (by decide)

/-- C6: two entries on one buffer handle with the same stride `s > 0`, one
attribute each at absolute offsets `0` and `o` (shader locations `la ≤ lb`).
When `o < s` the normalizer merges them into exactly one binding with
`bufferOffset = 0` and attribute offsets `0` and `o`; when `o ≥ s` it
splits them into two bindings, the second based at `bufferOffset = o` with
its attribute rebased to offset `0`.  Instantiating `s := 16, o := 12`
resp. `s := 16, o := 20` gives the claim's concrete scenarios (see the
witness). -/
theorem c6_normalizer_merge_split (hdl s o la lb : Nat) (fa fb : Format)
    (hs : 0 < s) (hl : la ≤ lb) :
    (o < s →
      NormalizeBufferLayout [⟨hdl, none, s, [⟨la, fa, 0⟩]⟩, ⟨hdl, none, s, [⟨lb, fb, o⟩]⟩] =
        some [⟨hdl, 0, s, [⟨la, fa, 0⟩, ⟨lb, fb, o⟩]⟩]) ∧
    (s ≤ o →
      NormalizeBufferLayout [⟨hdl, none, s, [⟨la, fa, 0⟩]⟩, ⟨hdl, none, s, [⟨lb, fb, o⟩]⟩] =
        some [⟨hdl, 0, s, [⟨la, fa, 0⟩]⟩, ⟨hdl, o, s, [⟨lb, fb, 0⟩]⟩]) := by
  constructor
  · intro ho
    have hno : ¬ s ≤ o := not_le.mpr ho
    simp [NormalizeBufferLayout, addToGroups, updateAlist, processGroup, scanGroup,
      pushBinding, sortByKey, insertByKey, bindingFirstLoc, hno, hl, Nat.le_zero,
      hs.ne', Nat.zero_le]
  · intro ho
    simp [NormalizeBufferLayout, addToGroups, updateAlist, processGroup, scanGroup,
      pushBinding, sortByKey, insertByKey, bindingFirstLoc, ho, hl, Nat.le_zero,
      hs.ne', Nat.zero_le]

/-- Witness for C6 at the claim's concrete inputs: stride 16 with offsets
0/12 (merge) and stride 16 with offsets 0/20 (split), locations 0 and 1. -/
theorem c6_normalizer_merge_split_witness :
    (NormalizeBufferLayout [⟨(7 : Nat), none, 16, [⟨0, .float32x3, 0⟩]⟩,
        ⟨7, none, 16, [⟨1, .float32, 12⟩]⟩] =
      some [⟨7, 0, 16, [⟨0, .float32x3, 0⟩, ⟨1, .float32, 12⟩]⟩]) ∧
    (NormalizeBufferLayout [⟨(7 : Nat), none, 16, [⟨0, .float32x3, 0⟩]⟩,
        ⟨7, none, 16, [⟨1, .float32, 20⟩]⟩] =
      some [⟨7, 0, 16, [⟨0, .float32x3, 0⟩]⟩, ⟨7, 20, 16, [⟨1, .float32, 0⟩]⟩]) :=
  ⟨(c6_normalizer_merge_split 7 16 12 0 1 .float32x3 .float32 (by decide) (by decide)).1
      (by decide),
   (c6_normalizer_merge_split 7 16 20 0 1 .float32x3 .float32 (by decide) (by decide)).2
      (by decide)⟩

theorem mem_insertByKey {α : Type} (key : α → Nat) (x y : α) (l : List α) :
    y ∈ insertByKey key x l ↔ y = x ∨ y ∈ l := by
  induction l with
  | nil => simp [insertByKey]
  | cons z zs ih =>
      rw [insertByKey]
      by_cases h : key x ≤ key z
      · simp only [if_pos h, List.mem_cons]
      · simp only [if_neg h, List.mem_cons, ih]
        tauto

theorem pairwise_insertByKey {α : Type} (key : α → Nat) (x : α) {l : List α}
    (hl : l.Pairwise fun a b => key a ≤ key b) :
    (insertByKey key x l).Pairwise fun a b => key a ≤ key b := by
  induction l with
  | nil => simp [insertByKey]
  | cons z zs ih =>
      rw [insertByKey]
      rcases List.pairwise_cons.mp hl with ⟨hz, hzs⟩
      by_cases h : key x ≤ key z
      · rw [if_pos h]
        refine List.pairwise_cons.mpr ⟨?_, hl⟩
        intro y hy
        rcases List.mem_cons.mp hy with rfl | hy
        · exact h
        · exact le_trans h (hz y hy)
      · rw [if_neg h]
        refine List.pairwise_cons.mpr ⟨?_, ih hzs⟩
        intro y hy
        rcases (mem_insertByKey key x y zs).mp hy with rfl | hy
        · exact le_of_not_le h
        · exact hz y hy

theorem sortByKey_pairwise {α : Type} (key : α → Nat) (l : List α) :
    (sortByKey key l).Pairwise fun a b => key a ≤ key b := by
  induction l with
  | nil => simp [sortByKey]
  | cons x xs ih =>
      rw [sortByKey]
      exact pairwise_insertByKey key x ih

theorem mem_sortByKey {α : Type} (key : α → Nat) (y : α) (l : List α) :
    y ∈ sortByKey key l ↔ y ∈ l := by
  induction l with
  | nil => simp [sortByKey]
  | cons x xs ih =>
      rw [sortByKey, mem_insertByKey]
      simp [ih]

theorem insertByKey_length {α : Type} (key : α → Nat) (x : α) (l : List α) :
    (insertByKey key x l).length = l.length + 1 := by
  induction l with
  | nil => rfl
  | cons z zs ih =>
      rw [insertByKey]
      by_cases h : key x ≤ key z
      · simp [if_pos h]
      · simp [if_neg h, ih]

theorem sortByKey_length {α : Type} (key : α → Nat) (l : List α) :
    (sortByKey key l).length = l.length := by
  induction l with
  | nil => rfl
  | cons x xs ih =>
      rw [sortByKey, insertByKey_length, ih]
      rfl

theorem sortByKey_ne_nil {α : Type} (key : α → Nat) {l : List α} (h : l ≠ []) :
    sortByKey key l ≠ [] := by
  intro hc
  apply h
  have := sortByKey_length key l
  rw [hc] at this
  exact List.length_eq_zero.mp this.symm

theorem scanGroup_attributes_sorted {β : Type} (buffer : β) (stride : Nat) :
    ∀ attribs minOff acc, ∀ b ∈ scanGroup buffer stride minOff acc attribs,
      b.attributes.Pairwise fun a a' => a.shaderLocation ≤ a'.shaderLocation := by
  intro attribs
  induction attribs with
  | nil =>
      intro minOff acc b hb
      simp only [scanGroup, List.mem_singleton] at hb
      subst hb
      exact sortByKey_pairwise _ _
  | cons a rest ih =>
      intro minOff acc b hb
      rw [scanGroup] at hb
      by_cases h : stride ≤ a.offset - minOff
      · rw [if_pos h] at hb
        rcases List.mem_cons.mp hb with rfl | hb
        · exact sortByKey_pairwise _ _
        · exact ih _ _ b hb
      · rw [if_neg h] at hb
        exact ih _ _ b hb

theorem scanGroup_ne_empty {β : Type} (buffer : β) (stride : Nat) :
    ∀ attribs minOff acc, acc ≠ [] →
      ∀ b ∈ scanGroup buffer stride minOff acc attribs, b.attributes ≠ [] := by
  intro attribs
  induction attribs with
  | nil =>
      intro minOff acc hacc b hb
      simp only [scanGroup, List.mem_singleton] at hb
      subst hb
      exact sortByKey_ne_nil _ hacc
  | cons a rest ih =>
      intro minOff acc hacc b hb
      rw [scanGroup] at hb
      by_cases h : stride ≤ a.offset - minOff
      · rw [if_pos h] at hb
        rcases List.mem_cons.mp hb with rfl | hb
        · exact sortByKey_ne_nil _ hacc
        · exact ih _ _ (by simp) b hb
      · rw [if_neg h] at hb
        exact ih _ _ (by simp [hacc]) b hb

theorem processGroup_ne_empty {β : Type} (buffer : β) (stride : Nat) (attribs : List Attrib)
    (hstride : 0 < stride) :
    ∀ b ∈ processGroup buffer stride attribs, b.attributes ≠ [] := by
  intro b hb
  rw [processGroup] at hb
  rcases hsort : sortByKey (·.offset) attribs with _ | ⟨a, rest⟩
  · simp only [hsort] at hb
    cases hb
  · simp only [hsort] at hb
    rw [scanGroup, Nat.sub_self, if_neg (by omega)] at hb
    exact scanGroup_ne_empty buffer stride rest a.offset _ (by simp) b hb

theorem processGroup_sorted {β : Type} (buffer : β) (stride : Nat) (attribs : List Attrib) :
    ∀ b ∈ processGroup buffer stride attribs,
      b.attributes.Pairwise fun a a' => a.shaderLocation ≤ a'.shaderLocation := by
  intro b hb
  rw [processGroup] at hb
  rcases hsort : sortByKey (·.offset) attribs with _ | ⟨a, rest⟩
  · simp only [hsort] at hb
    cases hb
  · simp only [hsort] at hb
    exact scanGroup_attributes_sorted buffer stride _ _ _ b hb

theorem updateAlist_forall {κ ν : Type} [DecidableEq κ] (P : κ × ν → Prop)
    (m : List (κ × ν)) (k : κ) (f : ν → ν) (init : ν)
    (hm : ∀ p ∈ m, P p) (hinit : P (k, f init)) (hupd : ∀ v, P (k, v) → P (k, f v)) :
    ∀ p ∈ updateAlist m k f init, P p := by
  induction m with
  | nil =>
      intro p hp
      simp only [updateAlist, List.mem_singleton] at hp
      subst hp
      exact hinit
  | cons q rest ih =>
      intro p hp
      rw [updateAlist] at hp
      by_cases h : q.1 = k
      · rw [if_pos h] at hp
        rcases List.mem_cons.mp hp with heq | hp
        · have hq := hm q (List.mem_cons_self _ _)
          subst heq
          rcases q with ⟨qk, qv⟩
          cases h
          exact hupd qv hq
        · exact hm p (List.mem_cons_of_mem _ hp)
      · rw [if_neg h] at hp
        rcases List.mem_cons.mp hp with heq | hp
        · subst heq
          exact hm q (List.mem_cons_self _ _)
        · exact ih (fun r hr => hm r (List.mem_cons_of_mem _ hr)) p hp

theorem groups_stride_pos {β : Type} [DecidableEq β] (inputs : List (InputLayout β))
    (h : ∀ l ∈ inputs, l.attributes ≠ [] → 0 < l.arrayStride) :
    ∀ init : List (β × List (Nat × List Attrib)),
      (∀ g ∈ init, ∀ sg ∈ g.2, 0 < sg.1) →
      ∀ g ∈ inputs.foldl addToGroups init, ∀ sg ∈ g.2, 0 < sg.1 := by
  induction inputs with
  | nil => intro init hinit; simpa using hinit
  | cons l rest ih =>
      intro init hinit
      rw [List.foldl_cons]
      have hrest : ∀ x ∈ rest, x.attributes ≠ [] → 0 < x.arrayStride :=
        fun x hx => h x (List.mem_cons_of_mem _ hx)
      refine ih hrest _ ?_
      rw [addToGroups]
      by_cases hempty : l.attributes.length = 0
      · rw [if_pos hempty]
        exact hinit
      · rw [if_neg hempty]
        have hstride : 0 < l.arrayStride :=
          h l (List.mem_cons_self _ _) (fun hc => hempty (by simp [hc]))
        intro g hg
        refine updateAlist_forall (fun g => ∀ sg ∈ g.2, 0 < sg.1) init l.buffer _ _
          hinit ?_ ?_ g hg
        · intro sg hsg
          dsimp only at hsg
          refine updateAlist_forall (fun sg => 0 < sg.1) [] l.arrayStride _ [] ?_ ?_ ?_ sg hsg
          · intro p hp; cases hp
          · exact hstride
          · intro v _; exact hstride
        · intro v hv sg hsg
          exact updateAlist_forall (fun sg => 0 < sg.1) v l.arrayStride _ [] hv hstride
            (fun _ _ => hstride) sg hsg

theorem foldl_addToGroups_filter {β : Type} [DecidableEq β] (inputs : List (InputLayout β)) :
    ∀ init, inputs.foldl addToGroups init =
      (inputs.filter fun l => !l.attributes.isEmpty).foldl addToGroups init := by
  induction inputs with
  | nil => intro init; rfl
  | cons l rest ih =>
      intro init
      rw [List.foldl_cons, List.filter_cons]
      by_cases hempty : l.attributes.length = 0
      · have hb : (!l.attributes.isEmpty) = false := by
          rw [List.length_eq_zero] at hempty
          simp [hempty]
        rw [hb]
        simp only [Bool.false_eq_true, if_false]
        rw [show addToGroups init l = init from by rw [addToGroups, if_pos hempty]]
        exact ih init
      · have hb : (!l.attributes.isEmpty) = true := by
          have hne : l.attributes ≠ [] := fun hc => hempty (by simp [hc])
          simp [hne]
        rw [hb]
        simp only [if_true]
        rw [List.foldl_cons]
        exact ih _

/-- C7 (amended): for every input list in which each entry bearing
attributes has a positive `arrayStride` (with a zero stride the final JS
sort throws, see the counterexample), `NormalizeBufferLayout` returns a
binding list in which every binding's attributes are sorted ascending by
`shaderLocation`, the bindings themselves are sorted ascending by their
first attribute's `shaderLocation`, and entries with an empty attribute
list are silently dropped (filtering them away does not change the
result). -/
theorem c7_sorted_bindings {β : Type} [DecidableEq β] (inputs : List (InputLayout β))
    (h : ∀ l ∈ inputs, l.attributes ≠ [] → 0 < l.arrayStride) :
    ∃ res, NormalizeBufferLayout inputs = some res ∧
      (∀ b ∈ res, b.attributes.Pairwise fun a a' => a.shaderLocation ≤ a'.shaderLocation) ∧
      res.Pairwise (fun b b' => bindingFirstLoc b ≤ bindingFirstLoc b') ∧
      NormalizeBufferLayout inputs =
        NormalizeBufferLayout (inputs.filter fun l => !l.attributes.isEmpty) := by
  have hpos := groups_stride_pos inputs h [] (by intro g hg; cases hg)
  have hmem : ∀ b ∈ ((inputs.foldl addToGroups []).map fun g =>
      ((g.2.map fun sg => processGroup g.1 sg.1 sg.2).flatten)).flatten,
      b.attributes ≠ [] ∧
        b.attributes.Pairwise fun a a' => a.shaderLocation ≤ a'.shaderLocation := by
    intro b hb
    rcases List.mem_flatten.mp hb with ⟨gl, hgl, hbgl⟩
    rcases List.mem_map.mp hgl with ⟨g, hg, rfl⟩
    rcases List.mem_flatten.mp hbgl with ⟨pl, hpl, hbpl⟩
    rcases List.mem_map.mp hpl with ⟨sg, hsg, rfl⟩
    exact ⟨processGroup_ne_empty g.1 sg.1 sg.2 (hpos g hg sg hsg) b hbpl,
      processGroup_sorted g.1 sg.1 sg.2 b hbpl⟩
  have hany : (((inputs.foldl addToGroups []).map fun g =>
      ((g.2.map fun sg => processGroup g.1 sg.1 sg.2).flatten)).flatten).any
        (fun b => b.attributes.isEmpty) = false := by
    rw [List.any_eq_false]
    intro b hb
    have := (hmem b hb).1
    simpa [List.isEmpty_iff] using this
  refine ⟨sortByKey bindingFirstLoc (((inputs.foldl addToGroups []).map fun g =>
      ((g.2.map fun sg => processGroup g.1 sg.1 sg.2).flatten)).flatten), ?_, ?_, ?_, ?_⟩
  · rw [NormalizeBufferLayout]
    simp only [hany, Bool.false_eq_true, if_false]
  · intro b hb
    rw [mem_sortByKey] at hb
    exact (hmem b hb).2
  · exact sortByKey_pairwise _ _
  · rw [NormalizeBufferLayout, NormalizeBufferLayout, foldl_addToGroups_filter inputs]

/-- Witness for C7 at a concrete two-entry input with positive strides. -/
theorem c7_sorted_bindings_witness :
    ∃ res, NormalizeBufferLayout [⟨(3 : Nat), none, 16, [⟨1, .float32, 4⟩, ⟨0, .float32x3, 0⟩]⟩,
        ⟨4, none, 8, []⟩] = some res ∧
      (∀ b ∈ res, b.attributes.Pairwise fun a a' => a.shaderLocation ≤ a'.shaderLocation) ∧
      res.Pairwise (fun b b' => bindingFirstLoc b ≤ bindingFirstLoc b') ∧
      NormalizeBufferLayout [⟨(3 : Nat), none, 16, [⟨1, .float32, 4⟩, ⟨0, .float32x3, 0⟩]⟩,
          ⟨4, none, 8, []⟩] =
        NormalizeBufferLayout ([⟨(3 : Nat), none, 16, [⟨1, .float32, 4⟩, ⟨0, .float32x3, 0⟩]⟩,
          ⟨4, none, 8, []⟩].filter fun l => !l.attributes.isEmpty) :=
  c7_sorted_bindings _ (by decide)

theorem serializeCore_forceVertex (l : GeometryLayout)
    (h : ∀ b ∈ l.buffers, b.stepMode = none) :
    serializeCore l = serializeCore
      { l with buffers := l.buffers.map fun b => { b with stepMode := some .vertex } } := by
  rw [serializeCore, serializeCore]
  refine congrArg₂ _ rfl ?_
  rw [List.map_map]
  refine congrArg _ (List.map_congr_left ?_)
  intro b hb
  have hsm := h b hb
  rw [Function.comp_apply, encodeBuffer, encodeBuffer]
  simp [hsm, stepModeVal]

/-- C10 (amended): for every `createLayout` call whose canonical key is not
already registered (in particular on a fresh cache), the defensive copy
omits `stepMode`, so the returned (newly registered) layout has no
`stepMode` on any buffer and its encoding is the same as with every
`stepMode` forced to `'vertex'` — even when a caller-supplied buffer said
`stepMode: 'instance'`.  (A key hit may instead return a layout that was
registered by `deserializeLayout` and carries an explicit
`stepMode: 'vertex'`; see the counterexample.) -/
theorem c10_createLayout_stepmode (st : CacheState) (bufs : List AttribBufferInput)
    (t : Topology) (f : IndexFormat)
    (hmiss : alistGet st.keyMap
      (hexEncode (serializeCore (mkGeometryLayout (copyBuffers bufs) t f))) = none) :
    ∃ l, (createLayout st bufs t f).1 = some l ∧
      (∀ b ∈ l.buffers, b.stepMode = none) ∧
      serializeCore l = serializeCore
        { l with buffers := l.buffers.map fun b => { b with stepMode := some .vertex } } := by
  have hsm : ∀ b ∈ copyBuffers bufs, b.stepMode = none := by
    intro b hb
    rcases List.mem_map.mp hb with ⟨x, _, rfl⟩
    rfl
  refine ⟨{ mkGeometryLayout (copyBuffers bufs) t f with
      id := some st.nextId,
      serializedBuffer := some (serializeCore (mkGeometryLayout (copyBuffers bufs) t f)),
      serializedString :=
        some (hexEncode (serializeCore (mkGeometryLayout (copyBuffers bufs) t f))) },
    ?_, ?_, ?_⟩
  · rw [createLayout]
    simp only [hmiss]
    rfl
  · exact hsm
  · exact serializeCore_forceVertex _ hsm

/-- Witness for C10 on a fresh cache with a caller-supplied
`stepMode: 'instance'`. -/
theorem c10_createLayout_stepmode_witness :
    ∃ l, (createLayout freshCache [⟨16, some .instanceMode, [⟨0, .float32, 0⟩]⟩]
        .triangleList .uint32).1 = some l ∧
      (∀ b ∈ l.buffers, b.stepMode = none) ∧
      serializeCore l = serializeCore
        { l with buffers := l.buffers.map fun b => { b with stepMode := some .vertex } } :=
  c10_createLayout_stepmode freshCache [⟨16, some .instanceMode, [⟨0, .float32, 0⟩]⟩]
    .triangleList .uint32 rfl

theorem alistGet_eq_none_iff {κ ν : Type} [DecidableEq κ] (m : List (κ × ν)) (k : κ) :
    alistGet m k = none ↔ k ∉ m.map Prod.fst := by
  induction m with
  | nil => simp [alistGet]
  | cons p rest ih =>
      rw [alistGet]
      by_cases h : p.1 = k
      · subst h
        rw [if_pos rfl]
        simp
      · rw [if_neg h, ih]
        simp only [List.map_cons, List.mem_cons]
        constructor
        · intro hk hc
          rcases hc with hc | hc
          · exact h hc.symm
          · exact hk hc
        · intro hk hc
          exact hk (Or.inr hc)

/-- Spec-side recomputation of the amended C8 minimum: walking the slots
in order, the quotient `byteLength / effectiveStride` of each distinct
source at its first use. -/
def firstUseStep (desc : GeometryDescriptor) (acc : List AttribValues × List ℚ)
    (slot : AttribSlot) : List AttribValues × List ℚ :=
  match desc.attribs slot with
  | none => acc
  | some attrib =>
      if attrib.values ∈ acc.1 then acc
      else (acc.1 ++ [attrib.values],
        acc.2 ++ [natDivQ attrib.values.byteLength
          (attrib.stride.getD (DefaultStride (attrib.format.getD (DefaultAttribFormat slot))))])

/-- The list of first-use quotients of a descriptor. -/
def firstUseQuotients (desc : GeometryDescriptor) : List ℚ :=
  (slotOrder.foldl (firstUseStep desc) ([], [])).2

theorem intake_fold_rel (desc : GeometryDescriptor) (slots : List AttribSlot) :
    ∀ (bacc : VertexIntake) (seen : List AttribValues) (qs : List ℚ),
      bacc.arraySource.map Prod.fst = seen →
      bacc.maxVertices = qs.foldl qmin maxSafeInteger →
      (slots.foldl (processSlot desc) bacc).arraySource.map Prod.fst =
          (slots.foldl (firstUseStep desc) (seen, qs)).1 ∧
        (slots.foldl (processSlot desc) bacc).maxVertices =
          (slots.foldl (firstUseStep desc) (seen, qs)).2.foldl qmin maxSafeInteger := by
  induction slots with
  | nil => intro bacc seen qs h1 h2; exact ⟨h1, h2⟩
  | cons slot rest ih =>
      intro bacc seen qs h1 h2
      rw [List.foldl_cons, List.foldl_cons]
      rcases hslot : desc.attribs slot with _ | attrib
      · rw [show processSlot desc bacc slot = bacc from by rw [processSlot, hslot],
          show firstUseStep desc (seen, qs) slot = (seen, qs) from by rw [firstUseStep, hslot]]
        exact ih bacc seen qs h1 h2
      · by_cases hseen : attrib.values ∈ seen
        · have hget : alistGet bacc.arraySource attrib.values ≠ none := by
            intro hc
            rw [alistGet_eq_none_iff, h1] at hc
            exact hc hseen
          rcases hx : alistGet bacc.arraySource attrib.values with _ | src
          · exact absurd hx hget
          · have hb : processSlot desc bacc slot =
                { bacc with vertexBufferLayouts := bacc.vertexBufferLayouts ++
                    [{ buffer := attrib.values
                       arrayStride := attrib.stride.getD (DefaultStride
                         (attrib.format.getD (DefaultAttribFormat slot)))
                       attributes := [{ shaderLocation := AttribLocation slot,
                                        format := attrib.format.getD (DefaultAttribFormat slot),
                                        offset := attrib.offset.getD 0 + src.bufferOffset }] }] } := by
              rw [processSlot, hslot]
              simp only [hx]
            have hsp : firstUseStep desc (seen, qs) slot = (seen, qs) := by
              rw [firstUseStep, hslot]
              simp [hseen]
            rw [hb, hsp]
            exact ih _ seen qs h1 h2
        · have hget : alistGet bacc.arraySource attrib.values = none := by
            rw [alistGet_eq_none_iff, h1]
            exact hseen
          have hnotin : attrib.values ∉ bacc.arraySource.map Prod.fst := by
            rw [h1]; exact hseen
          have hb : processSlot desc bacc slot =
              { vertexBufferLayouts := bacc.vertexBufferLayouts ++
                  [{ buffer := attrib.values
                     arrayStride := attrib.stride.getD (DefaultStride
                       (attrib.format.getD (DefaultAttribFormat slot)))
                     attributes := [{ shaderLocation := AttribLocation slot,
                                      format := attrib.format.getD (DefaultAttribFormat slot),
                                      offset := attrib.offset.getD 0 + bacc.requiredBufferSize }] }]
                arraySource := alistSet bacc.arraySource attrib.values
                  { bufferOffset := bacc.requiredBufferSize, size := attrib.values.byteLength }
                requiredBufferSize := bacc.requiredBufferSize +
                  (attrib.values.byteLength + 3) / 4 * 4
                maxVertices := qmin bacc.maxVertices (natDivQ attrib.values.byteLength
                  (attrib.stride.getD (DefaultStride
                    (attrib.format.getD (DefaultAttribFormat slot))))) } := by
            rw [processSlot, hslot]
            simp only [hget]
          have hsp : firstUseStep desc (seen, qs) slot = (seen ++ [attrib.values],
              qs ++ [natDivQ attrib.values.byteLength
                (attrib.stride.getD (DefaultStride
                  (attrib.format.getD (DefaultAttribFormat slot))))]) := by
            rw [firstUseStep, hslot]
            simp [hseen]
          rw [hb, hsp]
          refine ih _ _ _ ?_ ?_
          · rw [alistSet_eq_append _ _ _ hnotin]
            simp [h1]
          · rw [List.foldl_append, List.foldl_cons, List.foldl_nil, ← h2]

theorem normalizeIndices_length (idx : IndexInput) :
    (normalizeIndices idx).length = idx.length := by
  cases idx <;> rfl

theorem buildGeometry_drawCount (st : CacheState) (desc : GeometryDescriptor)
    (r : BuildResult) (st' : CacheState) (h : buildGeometry st desc = some (r, st')) :
    r.drawCount =
      match desc.drawCount with
      | some d => d
      | none =>
          match desc.indices.map normalizeIndices with
          | some ia => (ia.length : ℚ)
          | none => (intakeAttribs desc).maxVertices := by
  rw [buildGeometry] at h
  by_cases h0 : (intakeAttribs desc).requiredBufferSize = 0
  · rw [if_pos h0] at h
    cases h
  · rw [if_neg h0] at h
    rcases hn : NormalizeBufferLayout (intakeAttribs desc).vertexBufferLayouts with _ | bls
    · rw [hn] at h
      cases h
    · rw [hn] at h
      simp only [Option.bind_eq_bind, Option.some_bind] at h
      rcases hv : bls.mapM fun l => (alistGet (intakeAttribs desc).arraySource l.buffer).map
          fun s => ({ offset := l.bufferOffset, size := s.size } : VertexBinding) with _ | vbs
      · rw [hv] at h
        cases h
      · rw [hv] at h
        simp only [Option.some_bind] at h
        cases h
        rfl

/-- C8 (amended): whenever a geometry build succeeds with no explicit
`drawCount`, the returned `drawCount` equals, with indices, the index
count, and without indices the minimum over the *distinct sources* (each
counted once, at the first attribute slot that supplies it, with that
attribute's effective stride) of `byteLength / arrayStride`.  (The claim's
"minimum over all supplied attributes" fails when one source is reused
with a different stride — see the counterexample.) -/
theorem c8_drawcount (st : CacheState) (desc : GeometryDescriptor)
    (r : BuildResult) (st' : CacheState) (h : buildGeometry st desc = some (r, st'))
    (hdc : desc.drawCount = none) :
    (desc.indices = none →
      r.drawCount = (firstUseQuotients desc).foldl qmin maxSafeInteger) ∧
    (∀ idx, desc.indices = some idx → r.drawCount = (idx.length : ℚ)) := by
  have hd := buildGeometry_drawCount st desc r st' h
  rw [hdc] at hd
  constructor
  · intro hidx
    rw [hidx] at hd
    simp only [Option.map_none'] at hd
    rw [hd, intakeAttribs, firstUseQuotients]
    exact (intake_fold_rel desc slotOrder {} [] [] rfl rfl).2
  · intro idx hidx
    rw [hidx] at hd
    simp only [Option.map_some'] at hd
    rw [hd, normalizeIndices_length]

/-- Witness input for C8: one position attribute, 36 bytes, stride 12. -/
def c8WitnessDesc : GeometryDescriptor :=
  { attribs := fun s => match s with
      | .position => some { values := .view 0 36, stride := some 12 }
      | _ => none }

/-- Witness for C8: the build of `c8WitnessDesc` succeeds and returns
`drawCount = 36 / 12 = 3`. -/
theorem c8_drawcount_witness :
    ∃ p, buildGeometry freshCache c8WitnessDesc = some p ∧ p.1.drawCount = 3 := by
  have hs : (buildGeometry freshCache c8WitnessDesc).isSome = true := by decide
  rcases hx : buildGeometry freshCache c8WitnessDesc with _ | ⟨r, st'⟩
  · rw [hx] at hs
    cases hs
  · refine ⟨(r, st'), rfl, ?_⟩
    have hq := (c8_drawcount freshCache c8WitnessDesc r st' hx rfl).1 rfl
    rw [hq]
    decide

/-- Well-formedness of the strip-index field as the `GeometryLayout`
constructor establishes it: present exactly on strip topologies. -/
def StripWF (l : GeometryLayout) : Prop :=
  if l.topology.isStrip then (∃ f, l.stripIndexFormat = some f)
  else l.stripIndexFormat = none

theorem StripWF_mk (bufs : List BufferLayout) (t : Topology) (f : IndexFormat) :
    StripWF (mkGeometryLayout bufs t f) := by
  rw [StripWF, mkGeometryLayout]
  by_cases h : t.isStrip
  · simp only [h]
    exact ⟨f, by simp [h]⟩
  · simp only [h]
    simp [h]

theorem TopologyIdVal_inj : ∀ t t' : Topology,
    TopologyIdVal t = TopologyIdVal t' → t = t' := by
  intro t t' h
  cases t <;> cases t' <;> simp_all [TopologyIdVal]

theorem hexEncode_inj {bs1 bs2 : List Nat} (h1 : ∀ x ∈ bs1, x < 256)
    (h2 : ∀ x ∈ bs2, x < 256) (h : hexEncode bs1 = hexEncode bs2) : bs1 = bs2 := by
  rw [← hexDecode_hexEncode bs1 h1, ← hexDecode_hexEncode bs2 h2, h]

theorem stripFormat_eq_of_topoByte (l l' : GeometryLayout) (hwf : StripWF l)
    (hwf' : StripWF l') (h : topoByte l = topoByte l') :
    l.topology = l'.topology ∧ l.stripIndexFormat = l'.stripIndexFormat := by
  have ht := TopologyIdVal_le l.topology
  have ht' := TopologyIdVal_le l'.topology
  rw [topoByte, topoByte] at h
  have htag : TopologyIdVal l.topology = TopologyIdVal l'.topology := by
    rcases stripAdd_cases l with hs | hs <;> rcases stripAdd_cases l' with hs' | hs' <;>
      rw [hs, hs'] at h <;> omega
  have hadd : (match l.stripIndexFormat with
      | some f => StripIndexFormatIdVal f
      | none => 0) = (match l'.stripIndexFormat with
      | some f => StripIndexFormatIdVal f
      | none => 0) := by
    rcases stripAdd_cases l with hs | hs <;> rcases stripAdd_cases l' with hs' | hs' <;>
      rw [hs, hs'] <;> omega
  have htopo : l.topology = l'.topology := TopologyIdVal_inj _ _ htag
  refine ⟨htopo, ?_⟩
  rw [StripWF] at hwf hwf'
  by_cases hstrip : l'.topology.isStrip
  · rw [if_pos (htopo ▸ hstrip)] at hwf
    rw [if_pos hstrip] at hwf'
    rcases hwf with ⟨f, hf⟩
    rcases hwf' with ⟨f', hf'⟩
    rw [hf, hf'] at hadd ⊢
    cases f <;> cases f' <;> simp_all [StripIndexFormatIdVal]
  · rw [if_neg (htopo ▸ hstrip)] at hwf
    rw [if_neg hstrip] at hwf'
    rw [hwf, hwf']

/-- Consistency of a cache state: every registered key resolves to a
layout whose (field-level) encoding is that key and whose strip-index
field is constructor-shaped.  A fresh cache satisfies it vacuously, and
both registration paths establish it (`createLayout` keys by the fresh
layout's encoding; `deserializeLayout` registers a constructor-built
layout under the string it caches on it). -/
def KeyInv (st : CacheState) : Prop :=
  ∀ p ∈ st.keyMap, ∃ l, alistGet st.cacheList p.2 = some l ∧
    hexEncode (serializeCore l) = p.1 ∧ StripWF l

theorem createLayout_stripFormat (st : CacheState) (bufs : List AttribBufferInput)
    (t : Topology) (f : IndexFormat) (hinv : KeyInv st) :
    ∃ l, (createLayout st bufs t f).1 = some l ∧
      l.topology = t ∧
      l.stripIndexFormat = (if t.isStrip then some f else none) := by
  rcases hget : alistGet st.keyMap
      (hexEncode (serializeCore (mkGeometryLayout (copyBuffers bufs) t f))) with _ | id
  · refine ⟨{ mkGeometryLayout (copyBuffers bufs) t f with
        id := some st.nextId,
        serializedBuffer := some (serializeCore (mkGeometryLayout (copyBuffers bufs) t f)),
        serializedString :=
          some (hexEncode (serializeCore (mkGeometryLayout (copyBuffers bufs) t f))) },
      ?_, rfl, rfl⟩
    rw [createLayout]
    simp only [hget]
    rfl
  · rcases hinv _ (alistGet_mem hget) with ⟨l, hl, hkey, hwf⟩
    have hsc : serializeCore l = serializeCore (mkGeometryLayout (copyBuffers bufs) t f) :=
      hexEncode_inj (serializeCore_lt l) (serializeCore_lt _) hkey
    have hhead : topoByte l % 256 = topoByte (mkGeometryLayout (copyBuffers bufs) t f) % 256 :=
      List.head_eq_of_cons_eq hsc
    have htb : topoByte l = topoByte (mkGeometryLayout (copyBuffers bufs) t f) := by
      have h1 := topoByte_le l
      have h2 := topoByte_le (mkGeometryLayout (copyBuffers bufs) t f)
      rwa [Nat.mod_eq_of_lt (by omega), Nat.mod_eq_of_lt (by omega)] at hhead
    have hse := stripFormat_eq_of_topoByte l (mkGeometryLayout (copyBuffers bufs) t f)
      hwf (StripWF_mk _ t f) htb
    refine ⟨l, ?_, hse.1, ?_⟩
    · rw [createLayout]
      simp only [hget, hl]
    · rw [hse.2, mkGeometryLayout]

theorem buildGeometry_layout_index (st : CacheState) (desc : GeometryDescriptor)
    (r : BuildResult) (st' : CacheState) (h : buildGeometry st desc = some (r, st')) :
    ∃ bls, NormalizeBufferLayout (intakeAttribs desc).vertexBufferLayouts = some bls ∧
      r.layout = (createLayout st (bls.map toAttribInput) (desc.topology.getD .triangleList)
        (match desc.indices.map normalizeIndices with
         | some (.u16 _) => .uint16
         | _ => .uint32)).1 ∧
      r.indexBinding = (desc.indices.map normalizeIndices).map fun ia =>
        ({ format := match desc.indices.map normalizeIndices with
             | some (.u16 _) => .uint16
             | _ => .uint32,
           offset := 0, size := ia.byteLength } : IndexBinding) := by
  rw [buildGeometry] at h
  by_cases h0 : (intakeAttribs desc).requiredBufferSize = 0
  · rw [if_pos h0] at h
    cases h
  · rw [if_neg h0] at h
    rcases hn : NormalizeBufferLayout (intakeAttribs desc).vertexBufferLayouts with _ | bls
    · rw [hn] at h
      cases h
    · rw [hn] at h
      simp only [Option.bind_eq_bind, Option.some_bind] at h
      rcases hv : bls.mapM fun l => (alistGet (intakeAttribs desc).arraySource l.buffer).map
          fun s => ({ offset := l.bufferOffset, size := s.size } : VertexBinding) with _ | vbs
      · rw [hv] at h
        cases h
      · rw [hv] at h
        simp only [Option.some_bind] at h
        cases h
        exact ⟨bls, rfl, rfl, rfl⟩

/-- C9: for every successful build with indices (against a consistent
cache state), the indices are normalized to a fixed-width array — a 16-bit
typed input stays 16-bit (`indexBinding.format = 'uint16'`, 2 bytes per
index), while a 32-bit typed input or a plain numeric array becomes 32-bit
(`indexBinding.format = 'uint32'`, 4 bytes per index) — and the resulting
layout's `stripIndexFormat` equals that choice exactly when the topology
is a strip type, and is absent otherwise. -/
theorem c9_index_normalization (st : CacheState) (desc : GeometryDescriptor)
    (r : BuildResult) (st' : CacheState) (idx : IndexInput)
    (hinv : KeyInv st) (hidx : desc.indices = some idx)
    (h : buildGeometry st desc = some (r, st')) :
    ∃ fmt : IndexFormat,
      ((∃ n, idx = .u16 n ∧ fmt = .uint16 ∧ r.indexBinding = some ⟨fmt, 0, 2 * n⟩) ∨
       (∃ n, (idx = .u32 n ∨ idx = .plainIdx n) ∧ fmt = .uint32 ∧
         r.indexBinding = some ⟨fmt, 0, 4 * n⟩)) ∧
      ∃ L, r.layout = some L ∧
        L.topology = desc.topology.getD .triangleList ∧
        L.stripIndexFormat =
          (if (desc.topology.getD .triangleList).isStrip then some fmt else none) := by
  rcases buildGeometry_layout_index st desc r st' h with ⟨bls, _, hlay, hib⟩
  rw [hidx] at hlay hib
  cases idx with
  | u16 n =>
      refine ⟨.uint16, Or.inl ⟨n, rfl, rfl, by rw [hib]; rfl⟩, ?_⟩
      rcases createLayout_stripFormat st (bls.map toAttribInput)
        (desc.topology.getD .triangleList) .uint16 hinv with ⟨L, hL, hLt, hLs⟩
      exact ⟨L, by rw [hlay]; exact hL, hLt, hLs⟩
  | u32 n =>
      refine ⟨.uint32, Or.inr ⟨n, Or.inl rfl, rfl, by rw [hib]; rfl⟩, ?_⟩
      rcases createLayout_stripFormat st (bls.map toAttribInput)
        (desc.topology.getD .triangleList) .uint32 hinv with ⟨L, hL, hLt, hLs⟩
      exact ⟨L, by rw [hlay]; exact hL, hLt, hLs⟩
  | plainIdx n =>
      refine ⟨.uint32, Or.inr ⟨n, Or.inr rfl, rfl, by rw [hib]; rfl⟩, ?_⟩
      rcases createLayout_stripFormat st (bls.map toAttribInput)
        (desc.topology.getD .triangleList) .uint32 hinv with ⟨L, hL, hLt, hLs⟩
      exact ⟨L, by rw [hlay]; exact hL, hLt, hLs⟩

/-- Witness input for C9: a strip-topology geometry with 16-bit indices. -/
def c9WitnessDesc : GeometryDescriptor :=
  { attribs := fun s => match s with
      | .position => some { values := .view 0 48 }
      | _ => none
    indices := some (.u16 6)
    topology := some .triangleStrip }

/-- Witness for C9: the build of `c9WitnessDesc` succeeds on a fresh cache
and satisfies the index-normalization conclusions. -/
theorem c9_index_normalization_witness :
    ∃ p, buildGeometry freshCache c9WitnessDesc = some p ∧
      ∃ fmt : IndexFormat,
        ((∃ n, (.u16 6 : IndexInput) = .u16 n ∧ fmt = .uint16 ∧
            p.1.indexBinding = some ⟨fmt, 0, 2 * n⟩) ∨
         (∃ n, ((.u16 6 : IndexInput) = .u32 n ∨ (.u16 6 : IndexInput) = .plainIdx n) ∧
            fmt = .uint32 ∧ p.1.indexBinding = some ⟨fmt, 0, 4 * n⟩)) ∧
        ∃ L, p.1.layout = some L ∧
          L.topology = c9WitnessDesc.topology.getD .triangleList ∧
          L.stripIndexFormat =
            (if (c9WitnessDesc.topology.getD .triangleList).isStrip then some fmt else none) := by
  have hs : (buildGeometry freshCache c9WitnessDesc).isSome = true := by decide
  rcases hx : buildGeometry freshCache c9WitnessDesc with _ | ⟨r, st'⟩
  · rw [hx] at hs
    cases hs
  · exact ⟨(r, st'), rfl,
      c9_index_normalization freshCache c9WitnessDesc r st' (.u16 6)
        (by intro p hp; cases hp) rfl hx⟩

end GeometryLayoutClaims
